import Mathlib

/-!
Shallow embedding of the miwidothttp request-routing and resilience core,
together with theorems checking the natural-language specification against it.

Conventions used throughout:
* Rust machine integers that cannot overflow on the inputs considered are
  modelled as `Nat` (byte values are reduced `% 256` exactly where the Rust
  code performs an `as u8` truncation).
* `std::time::Instant` values are modelled as `Nat` seconds;
  `instant.elapsed()` at time `now` is `now - instant` (the program only
  compares elapsed times against whole-second `Duration`s).
* A compiled `regex::Regex` is modelled by its observable behaviour: a
  `String → Option (List (Option String))` capture function (`captures`),
  or a `String → Bool` match function (`is_match`).  Concrete regexes used
  in theorems are given explicit capture functions implementing the
  documented semantics of the concrete pattern.
* External I/O outcomes (Redis / disk writes) and ambient inputs
  (process environment variables) become explicit parameters.
-/

/-- Substring test on character lists: does `pat` occur at the start? -/
def listStartsWith : List Char → List Char → Bool
  | [], _ => true
  | _ :: _, [] => false
  | p :: ps, c :: cs => p = c && listStartsWith ps cs

/-- Substring containment on character lists (Rust `str::contains`). -/
def listContainsSub (pat : List Char) : List Char → Bool
  | [] => pat.isEmpty
  | c :: cs => listStartsWith pat (c :: cs) || listContainsSub pat cs

/-- Rust `str::contains` for string patterns. -/
def strContainsSub (s pat : String) : Bool :=
  listContainsSub pat.data s.data

/-- Replace all non-overlapping occurrences of `pat` (nonempty at every call
site in the embedded code) by `repl`, scanning left to right; the fuel is
the length of the scanned list, which one unit per consumed character always
suffices for.  This is Rust `str::replace` (and Lean `String.replace`),
restated structurally so that it evaluates inside the kernel. -/
def replaceFuel (pat repl : List Char) : Nat → List Char → List Char
  | 0, l => l
  | _ + 1, [] => []
  | fuel + 1, c :: cs =>
    if pat.isEmpty = false && listStartsWith pat (c :: cs) then
      repl ++ replaceFuel pat repl fuel (cs.drop (pat.length - 1))
    else
      c :: replaceFuel pat repl fuel cs

/-- Rust `str::replace` on strings. -/
def strReplace (s pat repl : String) : String :=
  String.mk (replaceFuel pat.data repl.data s.data.length s.data)

/-- Rust `str::starts_with`. -/
def strStartsWith (s pat : String) : Bool :=
  listStartsWith pat.data s.data

/-- Dropping the first `n` characters of a string (all uses are on ASCII
strings, where Rust byte offsets and character offsets agree). -/
def strDrop (s : String) (n : Nat) : String :=
  String.mk (s.data.drop n)

/-- Rust `str::to_uppercase` (ASCII inputs only at every call site). -/
def strToUpper (s : String) : String :=
  String.mk (s.data.map Char.toUpper)

/-- Rust `str::contains` for a single character. -/
def strContainsChar (s : String) (c : Char) : Bool :=
  s.data.contains c

namespace RewriteEngineM

/-- Flags of `rewrite_engine::RewriteFlag` (src/src/rewrite_engine.rs). -/
inductive RewriteFlag where
  | L
  | R
  | P
  | F
  | G
  | NC
  | QSA
  | R301
  | R302
deriving DecidableEq, Repr

/-- Flags of `rewrite_engine::ConditionFlag`. -/
inductive ConditionFlag where
  | NC
  | OR
deriving DecidableEq, Repr

/-- `rewrite_engine::RewriteRule`: the compiled `regex` field is modelled by
its capture function (group 0 is the whole match, as in `regex::Captures`). -/
structure RewriteRule where
  pattern : String
  replacement : String
  flags : List RewriteFlag
  regex : Option (String → Option (List (Option String)))

/-- `rewrite_engine::RewriteCondition`, with the compiled `regex` modelled by
its `is_match` function. -/
structure RewriteCondition where
  test_string : String
  pattern : String
  flags : List ConditionFlag
  regex : Option (String → Bool)

/-- `rewrite_engine::RewriteEngine`: compiled rules plus engine-level
conditions (in this module conditions are global to the engine, not
attached to individual rules). -/
structure RewriteEngine where
  rules : List RewriteRule
  conditions : List RewriteCondition

/-- `rewrite_engine::RewriteResult`. -/
inductive RewriteResult where
  | NoMatch
  | Rewrite (url : String)
  | Redirect (url : String) (permanent : Bool)
  | Proxy (url : String)
  | Forbidden
  | Gone
deriving DecidableEq, Repr

/-- Reads one `%{ENV:name}` reference (the part after the leading `%`):
expects `{ENV:` followed by a nonempty name without `}` and a closing `}`,
mirroring the regex `%\x7bENV:([^\x7d]+)\x7d` used by `expand_variables`. -/
def splitEnvRef : List Char → Option (List Char × List Char)
  | '{' :: 'E' :: 'N' :: 'V' :: ':' :: rest =>
    let name := rest.takeWhile (fun c => c ≠ '}')
    match rest.drop name.length with
    | '}' :: rest2 => if name.isEmpty then none else some (name, rest2)
    | _ => none
  | _ => none

/-- `Regex::replace_all` with pattern `%\x7bENV:([^\x7d]+)\x7d`, replacing each
occurrence by the value of the named environment variable (empty string when
unset).  The ambient process environment is passed in explicitly as `env`.
The fuel argument is the length of the scanned character list. -/
def envReplaceAux (env : List (String × String)) : Nat → List Char → List Char
  | 0, l => l
  | _ + 1, [] => []
  | fuel + 1, c :: rest =>
    if c = '%' then
      match splitEnvRef rest with
      | some (name, rest2) =>
        let value := ((env.find? (fun p => p.1 = String.mk name)).map Prod.snd).getD ""
        value.data ++ envReplaceAux env fuel rest2
      | none => c :: envReplaceAux env fuel rest
    else
      c :: envReplaceAux env fuel rest

/-- String-level wrapper for the `%\x7bENV:...\x7d` replacement. -/
def envReplace (env : List (String × String)) (s : String) : String :=
  String.mk (envReplaceAux env s.data.length s.data)

/-- `RewriteEngine::expand_variables` (src/src/rewrite_engine.rs:194-214):
replaces `%\x7bREQUEST_URI\x7d`, each `%\x7bHTTP:NAME\x7d` (header names
upper-cased), and — only when the intermediate result still contains
`%\x7bENV:` — the `%\x7bENV:name\x7d` references.  `headers` is the
`HashMap<String, String>` of request headers, `env` the process
environment. -/
def expandVariables (template : String) (url : String)
    (headers : List (String × String)) (env : List (String × String)) : String :=
  let result := strReplace template "%{REQUEST_URI}" url
  let result := headers.foldl
    (fun r kv => strReplace r ("%\x7bHTTP:" ++ strToUpper kv.1 ++ "\x7d") kv.2) result
  if strContainsSub result "%\x7bENV:" then envReplace env result else result

/-- `RewriteEngine::check_conditions` (src/src/rewrite_engine.rs:162-192):
AND-fold of all engine conditions, with the `OR` flag making the next
condition fold with a disjunction. -/
def checkConditions (eng : RewriteEngine) (url : String)
    (headers : List (String × String)) (env : List (String × String)) : Bool :=
  if eng.conditions.isEmpty then
    true
  else
    let step := fun (acc : Bool × Bool) (condition : RewriteCondition) =>
      let (result, use_or) := acc
      let test_value := expandVariables condition.test_string url headers env
      let condMatch := match condition.regex with
        | some rx => rx test_value
        | none => false
      let result := if use_or then result || condMatch else result && condMatch
      (result, condition.flags.contains ConditionFlag.OR)
    (eng.conditions.foldl step (true, false)).1

/-- The capture-substitution loop of `process_url`: for each capture group
`i` (including group 0) that matched, replace every occurrence of `$i` in
the replacement template by the matched text. -/
def applyCaptures (replacement : String) (captures : List (Option String)) : String :=
  captures.enum.foldl
    (fun r ic =>
      match ic.2 with
      | some matched => strReplace r ("$" ++ toString ic.1) matched
      | none => r)
    replacement

/-- The query-string handling of `process_url`: with the `QSA` flag and a
present query string, append it after `&` or `?`. -/
def applyQSA (rule : RewriteRule) (replacement : String)
    (query_string : Option String) : String :=
  match query_string with
  | some qs =>
    if rule.flags.contains RewriteFlag.QSA then
      if strContainsChar replacement '?' then replacement ++ "&" ++ qs
      else replacement ++ "?" ++ qs
    else replacement
  | none => replacement

/-- Outcome of one pass of `process_url` over the rule list: either the
function returns (`done`), or it reaches the tail call
`self.process_url(&result.get_url(), ...)` and re-applies the whole rule
set to the rewritten URL (`again`). -/
inductive PassOutcome where
  | done (r : RewriteResult)
  | again (url : String)
deriving DecidableEq, Repr

/-- One pass of the `for rule in &self.rules` loop of
`RewriteEngine::process_url` (src/src/rewrite_engine.rs:85-160) over the
remaining rules: skip rules whose conditions fail, whose regex is absent or
does not capture; on a match, apply the capture substitution and query
string handling, then resolve flags in source order (`F`, `G`, `R`/`R301`,
`R302`, `P`, `L`); with no terminal flag the pass requests a re-application
on the rewritten URL. -/
def processPass (eng : RewriteEngine) (query_string : Option String)
    (headers : List (String × String)) (env : List (String × String)) :
    List RewriteRule → String → PassOutcome
  | [], _ => PassOutcome.done RewriteResult.NoMatch
  | rule :: rest, url =>
    if checkConditions eng url headers env = false then
      processPass eng query_string headers env rest url
    else
      match rule.regex with
      | none => processPass eng query_string headers env rest url
      | some rx =>
        match rx url with
        | none => processPass eng query_string headers env rest url
        | some captures =>
          let replacement := applyCaptures rule.replacement captures
          let replacement := applyQSA rule replacement query_string
          if rule.flags.contains RewriteFlag.F then
            PassOutcome.done RewriteResult.Forbidden
          else if rule.flags.contains RewriteFlag.G then
            PassOutcome.done RewriteResult.Gone
          else if rule.flags.contains RewriteFlag.R
              || rule.flags.contains RewriteFlag.R301 then
            PassOutcome.done (RewriteResult.Redirect replacement true)
          else if rule.flags.contains RewriteFlag.R302 then
            PassOutcome.done (RewriteResult.Redirect replacement false)
          else if rule.flags.contains RewriteFlag.P then
            PassOutcome.done (RewriteResult.Proxy replacement)
          else if rule.flags.contains RewriteFlag.L then
            PassOutcome.done (RewriteResult.Rewrite replacement)
          else
            PassOutcome.again replacement

/-- `RewriteEngine::process_url` with a fuel budget on the number of
applications of the rule set: the Rust function recurses on the rewritten
URL without any bound, so `fuel` counts how many rule-set applications are
still permitted and `none` means the budget was exhausted before the
function returned. -/
def processUrlFuel (eng : RewriteEngine) (query_string : Option String)
    (headers : List (String × String)) (env : List (String × String)) :
    Nat → String → Option RewriteResult
  | 0, _ => none
  | fuel + 1, url =>
    match processPass eng query_string headers env eng.rules url with
    | PassOutcome.done r => some r
    | PassOutcome.again next =>
      processUrlFuel eng query_string headers env fuel next

/-- Entry point of the embedded `process_url`. -/
def processUrl (eng : RewriteEngine) (fuel : Nat) (url : String)
    (query_string : Option String) (headers : List (String × String))
    (env : List (String × String)) : Option RewriteResult :=
  processUrlFuel eng query_string headers env fuel url

/-- Capture function of the compiled regex `^/old/(.*)$`: a string matches
iff it starts with `/old/`; group 0 is the whole string, group 1 the
suffix after `/old/`. -/
def oldNewRegex (s : String) : Option (List (Option String)) :=
  if strStartsWith s "/old/" then some [some s, some (strDrop s 5)] else none

/-- The single-rule engine of spec scenario 1:
`pattern="^/old/(.*)$", replacement="/new/$1"`, no flags, no conditions. -/
def simpleRewriteEngine : RewriteEngine :=
  { rules := [{ pattern := "^/old/(.*)$"
                replacement := "/new/$1"
                flags := []
                regex := some oldNewRegex }]
    conditions := [] }

/-- Rust `str::to_lowercase` (ASCII inputs only at every call site). -/
def strToLower (s : String) : String :=
  String.mk (s.data.map Char.toLower)

/-- Capture function of the compiled regex `^/a$` (exact match). -/
def slashARegex (s : String) : Option (List (Option String)) :=
  if s = "/a" then some [some s] else none

/-- Capture function of the compiled regex `^/b$` (exact match). -/
def slashBRegex (s : String) : Option (List (Option String)) :=
  if s = "/b" then some [some s] else none

/-- A two-rule engine whose flagless rules rewrite cyclically:
`^/a$ → /b` and `^/b$ → /a`.  Both patterns compile, so this is a
compiled rule set in the sense of the specification. -/
def cycleEngine : RewriteEngine :=
  { rules := [{ pattern := "^/a$", replacement := "/b", flags := []
                regex := some slashARegex },
              { pattern := "^/b$", replacement := "/a", flags := []
                regex := some slashBRegex }]
    conditions := [] }

/-- On `/a` and `/b` the cyclic engine never returns, whatever the fuel:
each pass rewrites `/a` to `/b` or `/b` to `/a` with no terminal flag, so
`process_url` re-applies the rule set forever. -/
theorem cycleEngine_diverges (fuel : Nat) :
    processUrlFuel cycleEngine none [] [] fuel "/a" = none ∧
    processUrlFuel cycleEngine none [] [] fuel "/b" = none := by
  induction fuel with
  | zero => exact ⟨rfl, rfl⟩
  | succ n ih =>
    constructor
    · have h : processPass cycleEngine none [] [] cycleEngine.rules "/a" =
          PassOutcome.again "/b" := by decide
      simp only [processUrlFuel, h]
      exact ih.2
    · have h : processPass cycleEngine none [] [] cycleEngine.rules "/b" =
          PassOutcome.again "/a" := by decide
      simp only [processUrlFuel, h]
      exact ih.1

/-- Capture function of the compiled regex `(?i)^(.*)$`: matches every
string; group 0 and group 1 are the whole string. -/
def matchAllRegex (s : String) : Option (List (Option String)) :=
  some [some s, some s]

/-- Match function of the compiled regex `(?i)Mobile|Android|iPhone`:
case-insensitive containment of one of the three words. -/
def mobileUARegex (s : String) : Bool :=
  strContainsSub (strToLower s) "mobile" ||
  strContainsSub (strToLower s) "android" ||
  strContainsSub (strToLower s) "iphone"

/-- The engine of spec scenario 3: rule `pattern="^(.*)$",
replacement="/mobile$1"` guarded by the condition
`test="$http_user_agent", pattern="Mobile|Android|iPhone", flags=[NOCASE]`
(in this module, conditions live on the engine). -/
def mobileEngine : RewriteEngine :=
  { rules := [{ pattern := "^(.*)$", replacement := "/mobile$1", flags := []
                regex := some matchAllRegex }]
    conditions := [{ test_string := "$http_user_agent"
                     pattern := "Mobile|Android|iPhone"
                     flags := [ConditionFlag.NC]
                     regex := some mobileUARegex }] }

/-- The headers of spec scenario 3. -/
def mobileHeaders : List (String × String) := [("User-Agent", "Mozilla/5.0 iPhone")]

end RewriteEngineM

open RewriteEngineM in
/-- C1 (code bug): on the failing input — the single flagless rule
`^/old/(.*)$ → /new/$1` applied to `/old/page` — the pass over the rule
list does match and rewrite the URI to `/new/page`, but because no terminal
flag fires, `process_url` re-applies the rule set to `/new/page`, finds no
match there, and returns `NoMatch`, discarding the committed rewrite; the
claim (and the spec) require an internal-rewrite result carrying
`/new/page`. -/
theorem c1_flagless_rewrite_discarded :
    processPass simpleRewriteEngine none [] [] simpleRewriteEngine.rules
      "/old/page" = PassOutcome.again "/new/page" ∧
    processUrl simpleRewriteEngine 32 "/old/page" none [] [] =
      some RewriteResult.NoMatch := by
  refine ⟨by decide, by decide⟩

open RewriteEngineM in
/-- C6 counterexample: the compiled two-rule set `^/a$ → /b`, `^/b$ → /a`
(no flags) on input `/a` does not finish within rules × 32 = 64 rule-set
applications: the engine is still running when that budget is exhausted,
so `process_url` does not terminate within the claimed bound. -/
theorem c6_counterexample_cycle_64 :
    processUrl cycleEngine 64 "/a" none [] [] = none := by
  exact (cycleEngine_diverges 64).1

open RewriteEngineM in
/-- C6 (amended): `process_url` has no iteration cap at all; for the
compiled rule set `\x7b^/a$ → /b, ^/b$ → /a\x7d` with no flags on input
`/a`, no number of rule-set applications ever suffices — the recursion on
the rewritten URI runs forever, so in particular no rules × 32 bound
holds. -/
theorem c6_no_iteration_bound (fuel : Nat) :
    processUrl cycleEngine fuel "/a" none [] [] = none := by
  exact (cycleEngine_diverges fuel).1

open RewriteEngineM in
/-- C7 counterexample: with the rule `^(.*)$ → /mobile$1` guarded by the
condition `test="$http_user_agent", pattern="Mobile|Android|iPhone",
flags=[NOCASE]`, the request `/page` with header
`User-Agent: Mozilla/5.0 iPhone` is NOT rewritten to `/mobile/page`. -/
theorem c7_counterexample_ua_condition :
    processUrl mobileEngine 32 "/page" none mobileHeaders [] ≠
      some (RewriteResult.Rewrite "/mobile/page") := by
  decide

open RewriteEngineM in
/-- C7 (amended): the engine expands only `%\x7bREQUEST_URI\x7d`,
`%\x7bHTTP:NAME\x7d` and `%\x7bENV:name\x7d` references, so the test string
`$http_user_agent` is left unchanged by variable expansion; the condition
regex then fails against that literal string, the guarded rule is skipped,
and the engine returns `NoMatch` (no rewrite happens at all). -/
theorem c7_ua_condition_not_expanded :
    expandVariables "$http_user_agent" "/page" mobileHeaders [] =
      "$http_user_agent" ∧
    checkConditions mobileEngine "/page" mobileHeaders [] = false ∧
    processUrl mobileEngine 32 "/page" none mobileHeaders [] =
      some RewriteResult.NoMatch := by
  refine ⟨by decide, by decide, by decide⟩

namespace CircuitBreakerM

/-- `circuit_breaker::Config` (src/src/circuit_breaker.rs): the timeout is
in whole seconds. -/
structure Config where
  failure_threshold : Nat
  success_threshold : Nat
  timeout : Nat
  half_open_max_calls : Nat
deriving DecidableEq, Repr

/-- `circuit_breaker::State`. -/
inductive State where
  | Closed
  | Open
  | HalfOpen
deriving DecidableEq, Repr

/-- The mutable fields of `circuit_breaker::CircuitBreaker`: the three-state
machine, its counters, and the last failure instant (`Nat` seconds). -/
structure Breaker where
  state : State
  failure_count : Nat
  success_count : Nat
  half_open_calls : Nat
  last_failure_time : Option Nat
  total_requests : Nat
  total_failures : Nat
deriving DecidableEq, Repr

/-- `CircuitBreaker::new`. -/
def newBreaker : Breaker :=
  { state := State.Closed, failure_count := 0, success_count := 0
    half_open_calls := 0, last_failure_time := none
    total_requests := 0, total_failures := 0 }

/-- `CircuitBreaker::transition_to_open`: resets failure and success counts
but NOT the half-open call counter. -/
def transitionToOpen (b : Breaker) : Breaker :=
  { b with state := State.Open, failure_count := 0, success_count := 0 }

/-- `CircuitBreaker::transition_to_closed`. -/
def transitionToClosed (b : Breaker) : Breaker :=
  { b with state := State.Closed, failure_count := 0, success_count := 0
           half_open_calls := 0 }

/-- `CircuitBreaker::transition_to_half_open`. -/
def transitionToHalfOpen (b : Breaker) : Breaker :=
  { b with state := State.HalfOpen, success_count := 0, half_open_calls := 0 }

/-- `CircuitBreaker::should_attempt_reset`: true when at least `timeout`
seconds have elapsed since the recorded last failure. -/
def shouldAttemptReset (cfg : Config) (b : Breaker) (now : Nat) : Bool :=
  match b.last_failure_time with
  | some t => cfg.timeout ≤ now - t
  | none => false

/-- `CircuitBreaker::on_success` (src/src/circuit_breaker.rs:95-112). -/
def onSuccess (cfg : Config) (b : Breaker) : Breaker :=
  match b.state with
  | State.Closed => { b with failure_count := 0 }
  | State.HalfOpen =>
    let successes := b.success_count + 1
    if cfg.success_threshold ≤ successes then transitionToClosed b
    else { b with success_count := successes }
  | State.Open => b

/-- `CircuitBreaker::on_failure` (src/src/circuit_breaker.rs:114-134): note
that `last_failure_time` is written after the state match, in every case. -/
def onFailure (cfg : Config) (b : Breaker) (now : Nat) : Breaker :=
  let b := { b with total_failures := b.total_failures + 1 }
  let b2 :=
    match b.state with
    | State.Closed =>
      let failures := b.failure_count + 1
      if cfg.failure_threshold ≤ failures then transitionToOpen b
      else { b with failure_count := failures }
    | State.HalfOpen => transitionToOpen b
    | State.Open => b
  { b2 with last_failure_time := some now }

/-- Result of the admission phase of `CircuitBreaker::call`
(src/src/circuit_breaker.rs:52-76), carrying the breaker state as left
behind by that phase.  `rejectedOpen` is the `"Circuit breaker is open"`
error, `rejectedHalfOpenCap` the `"Circuit breaker half-open limit
reached"` error; only `admitted` goes on to execute the guarded
function. -/
inductive AdmitResult where
  | rejectedOpen (b : Breaker)
  | rejectedHalfOpenCap (b : Breaker)
  | admitted (b : Breaker)
deriving DecidableEq, Repr

/-- The admission phase of `CircuitBreaker::call`: count the request; an
Open breaker either rejects or (after the timeout) transitions to HalfOpen
and proceeds — without touching the half-open call counter; a HalfOpen
breaker increments the counter unconditionally (`fetch_add` before the
comparison) and rejects when the previous value had already reached
`half_open_max_calls`; a Closed breaker admits. -/
def admitCall (cfg : Config) (b : Breaker) (now : Nat) : AdmitResult :=
  let b := { b with total_requests := b.total_requests + 1 }
  match b.state with
  | State.Open =>
    if shouldAttemptReset cfg b now then
      AdmitResult.admitted (transitionToHalfOpen b)
    else
      AdmitResult.rejectedOpen b
  | State.HalfOpen =>
    let calls := b.half_open_calls
    let b := { b with half_open_calls := calls + 1 }
    if cfg.half_open_max_calls ≤ calls then
      AdmitResult.rejectedHalfOpenCap b
    else
      AdmitResult.admitted b
  | State.Closed => AdmitResult.admitted b

/-- The completion phase of `CircuitBreaker::call`: the guarded function
returned `Ok` (`ok = true`) or `Err`. -/
def finishCall (cfg : Config) (b : Breaker) (now : Nat) (ok : Bool) : Breaker :=
  if ok then onSuccess cfg b else onFailure cfg b now

/-- Observable outcome of one sequential `CircuitBreaker::call`. -/
inductive CallOutcome where
  | breakerOpenError
  | halfOpenCapError
  | executedOk
  | executedErr
deriving DecidableEq, Repr

/-- One sequential `CircuitBreaker::call` at time `now` whose guarded
function would return `Ok` iff `ok`: admission followed immediately by
completion. -/
def call (cfg : Config) (b : Breaker) (now : Nat) (ok : Bool) :
    CallOutcome × Breaker :=
  match admitCall cfg b now with
  | AdmitResult.rejectedOpen b2 => (CallOutcome.breakerOpenError, b2)
  | AdmitResult.rejectedHalfOpenCap b2 => (CallOutcome.halfOpenCapError, b2)
  | AdmitResult.admitted b2 =>
    (if ok then CallOutcome.executedOk else CallOutcome.executedErr,
     finishCall cfg b2 now ok)

/-- Projection used in theorem statements: the breaker state a call is
admitted in, or `none` if the call was rejected. -/
def admittedState : AdmitResult → Option State
  | AdmitResult.admitted b => some b.state
  | _ => none

/-- A system state for interleaved calls: the shared breaker plus, for each
in-flight (admitted but not yet completed) call, the breaker state it was
admitted in. -/
structure SysState where
  breaker : Breaker
  inflight : List State
deriving DecidableEq, Repr

/-- An interleaving event: a new call arrives at time `now`, or the
in-flight call at position `idx` completes (with success iff `ok`). -/
inductive Event where
  | arrive (now : Nat)
  | finish (idx : Nat) (ok : Bool) (now : Nat)
deriving DecidableEq, Repr

/-- Small-step semantics of interleaved `CircuitBreaker::call`s: each
admission and each completion is one atomic step on the shared breaker,
exactly as the `RwLock`/atomic operations serialise them in the source. -/
def stepEvent (cfg : Config) (s : SysState) : Event → SysState
  | Event.arrive now =>
    match admitCall cfg s.breaker now with
    | AdmitResult.admitted b2 => ⟨b2, s.inflight ++ [b2.state]⟩
    | AdmitResult.rejectedOpen b2 => ⟨b2, s.inflight⟩
    | AdmitResult.rejectedHalfOpenCap b2 => ⟨b2, s.inflight⟩
  | Event.finish idx ok now =>
    if idx < s.inflight.length then
      ⟨finishCall cfg s.breaker now ok, s.inflight.eraseIdx idx⟩
    else s

/-- Run a list of interleaving events from a system state. -/
def runEvents (cfg : Config) (events : List Event) (s : SysState) : SysState :=
  events.foldl (stepEvent cfg) s

/-- Number of calls admitted among the next `k` back-to-back arrivals at
time `now` (no completions in between). -/
def admittedCount (cfg : Config) (now : Nat) : Nat → Breaker → Nat
  | 0, _ => 0
  | k + 1, b =>
    match admitCall cfg b now with
    | AdmitResult.admitted b2 => 1 + admittedCount cfg now k b2
    | AdmitResult.rejectedHalfOpenCap b2 => admittedCount cfg now k b2
    | AdmitResult.rejectedOpen b2 => admittedCount cfg now k b2

/-- The configuration of spec scenario 4. -/
def cfg4 : Config :=
  { failure_threshold := 5, success_threshold := 2, timeout := 30
    half_open_max_calls := 3 }

end CircuitBreakerM

open CircuitBreakerM in
/-- C2: with `failure_threshold=5, success_threshold=2, timeout=30s,
half_open_max_calls=3`, starting Closed: after five consecutive failed
calls (all at t=0) the breaker is Open; a call at t+10s is rejected with
the breaker-open error without executing the guarded function and leaves
the breaker Open; a call at t+35s is admitted in HalfOpen; its success and
one further successful call close the breaker. -/
theorem c2_circuit_open_scenario :
    (((List.range 5).foldl (fun b _ => (call cfg4 b 0 false).2) newBreaker).state
        = State.Open) ∧
    ((call cfg4 ((List.range 5).foldl (fun b _ => (call cfg4 b 0 false).2)
        newBreaker) 10 true).1 = CallOutcome.breakerOpenError) ∧
    ((call cfg4 ((List.range 5).foldl (fun b _ => (call cfg4 b 0 false).2)
        newBreaker) 10 true).2.state = State.Open) ∧
    (admittedState (admitCall cfg4 ((List.range 5).foldl
        (fun b _ => (call cfg4 b 0 false).2) newBreaker) 35)
        = some State.HalfOpen) ∧
    ((call cfg4 (call cfg4 ((List.range 5).foldl
        (fun b _ => (call cfg4 b 0 false).2) newBreaker) 35 true).2 36
        true).2.state = State.Closed) := by
  refine ⟨by decide, by decide, by decide, by decide, by decide⟩

open CircuitBreakerM in
/-- C5 counterexample: with `half_open_max_calls = 3`, a breaker driven Open
by five failures at t=0 admits, at t=35, four concurrent calls while in the
HalfOpen state — the call that triggers the Open→HalfOpen transition is
executed without being counted against the half-open cap, and three more
arrivals pass the counter check — so four admitted calls are in flight in
HalfOpen at once, exceeding `half_open_max_calls`. -/
theorem c5_counterexample_four_inflight :
    (runEvents cfg4
      [Event.arrive 0, Event.finish 0 false 0,
       Event.arrive 0, Event.finish 0 false 0,
       Event.arrive 0, Event.finish 0 false 0,
       Event.arrive 0, Event.finish 0 false 0,
       Event.arrive 0, Event.finish 0 false 0,
       Event.arrive 35, Event.arrive 35, Event.arrive 35, Event.arrive 35]
      ⟨newBreaker, []⟩).breaker.state = State.HalfOpen ∧
    (runEvents cfg4
      [Event.arrive 0, Event.finish 0 false 0,
       Event.arrive 0, Event.finish 0 false 0,
       Event.arrive 0, Event.finish 0 false 0,
       Event.arrive 0, Event.finish 0 false 0,
       Event.arrive 0, Event.finish 0 false 0,
       Event.arrive 35, Event.arrive 35, Event.arrive 35, Event.arrive 35]
      ⟨newBreaker, []⟩).inflight =
      [State.HalfOpen, State.HalfOpen, State.HalfOpen, State.HalfOpen] ∧
    cfg4.half_open_max_calls = 3 := by
  refine ⟨by decide, by decide, by decide⟩

open CircuitBreakerM in
/-- Unfolding of the admission phase on a HalfOpen breaker: the request is
counted, the half-open counter is incremented unconditionally, and the call
is rejected iff the previous counter value had reached the cap. -/
theorem admitCall_halfOpen_eq (cfg : Config)
    (fc sc hoc : Nat) (lf : Option Nat) (tr tf now : Nat) :
    admitCall cfg ⟨State.HalfOpen, fc, sc, hoc, lf, tr, tf⟩ now =
      if cfg.half_open_max_calls ≤ hoc then
        AdmitResult.rejectedHalfOpenCap
          ⟨State.HalfOpen, fc, sc, hoc + 1, lf, tr + 1, tf⟩
      else
        AdmitResult.admitted
          ⟨State.HalfOpen, fc, sc, hoc + 1, lf, tr + 1, tf⟩ := rfl

open CircuitBreakerM in
/-- Back-to-back arrivals on a HalfOpen breaker admit at most
`half_open_max_calls - half_open_calls` calls. -/
theorem admittedCount_halfOpen_le (cfg : Config) (now : Nat) :
    ∀ (k fc sc hoc : Nat) (lf : Option Nat) (tr tf : Nat),
      admittedCount cfg now k ⟨State.HalfOpen, fc, sc, hoc, lf, tr, tf⟩ ≤
        cfg.half_open_max_calls - hoc := by
  intro k
  induction k with
  | zero =>
    intro fc sc hoc lf tr tf
    simp [admittedCount]
  | succ n ih =>
    intro fc sc hoc lf tr tf
    rw [admittedCount, admitCall_halfOpen_eq]
    by_cases hc : cfg.half_open_max_calls ≤ hoc
    · rw [if_pos hc]
      dsimp only
      have := ih fc sc (hoc + 1) lf (tr + 1) tf
      omega
    · rw [if_neg hc]
      dsimp only
      have := ih fc sc (hoc + 1) lf (tr + 1) tf
      omega

open CircuitBreakerM in
/-- Unfolding of `on_success` on a HalfOpen breaker. -/
theorem onSuccess_halfOpen_eq (cfg : Config)
    (fc sc hoc : Nat) (lf : Option Nat) (tr tf : Nat) :
    onSuccess cfg ⟨State.HalfOpen, fc, sc, hoc, lf, tr, tf⟩ =
      if cfg.success_threshold ≤ sc + 1 then
        ⟨State.Closed, 0, 0, 0, lf, tr, tf⟩
      else
        ⟨State.HalfOpen, fc, sc + 1, hoc, lf, tr, tf⟩ := rfl

open CircuitBreakerM in
/-- Unfolding of `on_failure` on a Closed breaker: the failure is counted,
the threshold decides the transition, and the last-failure instant is
recorded in either case. -/
theorem onFailure_closed_eq (cfg : Config)
    (fc sc hoc : Nat) (lf : Option Nat) (tr tf now : Nat) :
    onFailure cfg ⟨State.Closed, fc, sc, hoc, lf, tr, tf⟩ now =
      if cfg.failure_threshold ≤ fc + 1 then
        ⟨State.Open, 0, 0, hoc, some now, tr, tf + 1⟩
      else
        ⟨State.Closed, fc + 1, sc, hoc, some now, tr, tf + 1⟩ := by
  by_cases hf : cfg.failure_threshold ≤ fc + 1
  · rw [if_pos hf]
    simp only [onFailure]
    rw [if_pos hf]
    rfl
  · rw [if_neg hf]
    simp only [onFailure]
    rw [if_neg hf]

open CircuitBreakerM in
/-- C5 (amended): in HalfOpen, an arriving call is admitted through the
counter check iff the counter is still below `half_open_max_calls`, and
every arrival — admitted or rejected — increments the counter; hence among
any run of back-to-back arrivals in HalfOpen at most
`half_open_max_calls - half_open_calls` are admitted.  A completed call
never frees its slot: completion either leaves the counter unchanged or
resets it to zero on a state transition.  (The call that triggers the
Open→HalfOpen transition is admitted without touching the counter, so up
to `half_open_max_calls + 1` calls can be concurrently in flight in
HalfOpen, as the counterexample shows.) -/
theorem c5_half_open_cap :
    (∀ (cfg : Config) (b : Breaker) (now : Nat),
      b.state = State.HalfOpen →
      (b.half_open_calls < cfg.half_open_max_calls →
        admitCall cfg b now = AdmitResult.admitted
          { b with total_requests := b.total_requests + 1
                   half_open_calls := b.half_open_calls + 1 }) ∧
      (cfg.half_open_max_calls ≤ b.half_open_calls →
        admitCall cfg b now = AdmitResult.rejectedHalfOpenCap
          { b with total_requests := b.total_requests + 1
                   half_open_calls := b.half_open_calls + 1 }) ∧
      (∀ k, admittedCount cfg now k b ≤
        cfg.half_open_max_calls - b.half_open_calls)) ∧
    (∀ (cfg : Config) (b : Breaker) (now : Nat) (ok : Bool),
      (finishCall cfg b now ok).half_open_calls = b.half_open_calls ∨
      (finishCall cfg b now ok).half_open_calls = 0) := by
  constructor
  · intro cfg b now hst
    obtain ⟨st, fc, sc, hoc, lf, tr, tf⟩ := b
    simp only [Breaker.state] at hst
    subst hst
    refine ⟨?_, ?_, ?_⟩
    · intro hlt
      rw [admitCall_halfOpen_eq, if_neg (by simpa using Nat.not_le.mpr hlt)]
    · intro hle
      rw [admitCall_halfOpen_eq, if_pos (by simpa using hle)]
    · intro k
      simpa using admittedCount_halfOpen_le cfg now k fc sc hoc lf tr tf
  · intro cfg b now ok
    obtain ⟨st, fc, sc, hoc, lf, tr, tf⟩ := b
    cases ok with
    | true =>
      cases st with
      | Closed => left; rfl
      | Open => left; rfl
      | HalfOpen =>
        by_cases hs : cfg.success_threshold ≤ sc + 1
        · right
          show (onSuccess cfg ⟨State.HalfOpen, fc, sc, hoc, lf, tr, tf⟩).half_open_calls = 0
          rw [onSuccess_halfOpen_eq, if_pos hs]
        · left
          show (onSuccess cfg ⟨State.HalfOpen, fc, sc, hoc, lf, tr, tf⟩).half_open_calls = hoc
          rw [onSuccess_halfOpen_eq, if_neg hs]
    | false =>
      cases st with
      | Open => left; rfl
      | HalfOpen => left; rfl
      | Closed =>
        left
        show (onFailure cfg ⟨State.Closed, fc, sc, hoc, lf, tr, tf⟩ now).half_open_calls = hoc
        rw [onFailure_closed_eq]
        by_cases hf : cfg.failure_threshold ≤ fc + 1
        · rw [if_pos hf]
        · rw [if_neg hf]

open CircuitBreakerM in
/-- Witness for C5: at the concrete HalfOpen breaker with counter 0 and the
configuration of scenario 4, the amended theorem instantiates: the next
arrival is admitted with the counter moved to 1, and ten back-to-back
arrivals admit at most three calls. -/
theorem c5_half_open_cap_witness :
    admitCall cfg4
      ⟨State.HalfOpen, 0, 0, 0, some 0, 0, 0⟩ 35 = AdmitResult.admitted
      ⟨State.HalfOpen, 0, 0, 1, some 0, 1, 0⟩ ∧
    admittedCount cfg4 35 10 ⟨State.HalfOpen, 0, 0, 0, some 0, 0, 0⟩ ≤ 3 := by
  constructor
  · exact ((c5_half_open_cap.1 cfg4 ⟨State.HalfOpen, 0, 0, 0, some 0, 0, 0⟩ 35
      rfl).1 (by decide))
  · exact ((c5_half_open_cap.1 cfg4 ⟨State.HalfOpen, 0, 0, 0, some 0, 0, 0⟩ 35
      rfl).2.2 10)

/-- `HashMap::insert` / `moka::Cache::insert` on an association list: replace
the value of an existing key in place, otherwise append the pair. -/
def assocInsert {α : Type} (m : List (String × α)) (k : String) (v : α) :
    List (String × α) :=
  match m with
  | [] => [(k, v)]
  | (k2, v2) :: rest =>
    if k2 = k then (k, v) :: rest else (k2, v2) :: assocInsert rest k v

/-- Association-list lookup (`HashMap::get`). -/
def assocFind {α : Type} (m : List (String × α)) (k : String) : Option α :=
  match m with
  | [] => none
  | (k2, v2) :: rest => if k2 = k then some v2 else assocFind rest k

namespace ProcessM

/-- `config::AppType` as used by the process manager. -/
inductive AppType where
  | NodeJS
  | Python
  | Tomcat
  | Other
deriving DecidableEq, Repr

/-- The supervision-relevant fields of `process::ProcessInfo`
(src/src/process.rs:14-21): `last_restart` is `Option` seconds. -/
structure ProcessInfo where
  pid : Nat
  app_type : AppType
  auto_restart : Bool
  restart_count : Nat
  last_restart : Option Nat
deriving DecidableEq, Repr

/-- Whether `ProcessManager::restart_process` refuses
(`Err("restarting too frequently")`) or proceeds to re-spawn the saved
recipe. -/
inductive RestartDecision where
  | refused
  | restarted
deriving DecidableEq, Repr

/-- `ProcessManager::restart_process` (src/src/process.rs:249-277) for a
tracked process: first `restart_count` is incremented and `last_restart`
is overwritten with the current instant; only then is the throttle check
performed, comparing the elapsed time of that just-written timestamp
against 60 seconds. -/
def restartProcess (info : ProcessInfo) (now : Nat) :
    RestartDecision × ProcessInfo :=
  let info := { info with restart_count := info.restart_count + 1
                          last_restart := some now }
  if 5 < info.restart_count then
    match info.last_restart with
    | some t =>
      if now - t < 60 then (RestartDecision.refused, info)
      else (RestartDecision.restarted, info)
    | none => (RestartDecision.restarted, info)
  else
    (RestartDecision.restarted, info)

end ProcessM

open ProcessM in
/-- C3 (code bug): a process whose previous restart was 1000 seconds ago
(`last_restart = 0`, `now = 1000`, far outside the 60-second back-off
window) and whose `restart_count` is 6 is still refused, because
`restart_process` overwrites `last_restart` with the current instant before
checking it, making the elapsed time 0; in general the refusal depends only
on the incremented restart count, never on the time since the previous
restart. -/
theorem c3_backoff_ignores_elapsed_time :
    (restartProcess ⟨100, AppType.NodeJS, true, 6, some 0⟩ 1000).1 =
      RestartDecision.refused ∧
    60 ≤ 1000 - 0 ∧
    ∀ (info : ProcessInfo) (now : Nat),
      (restartProcess info now).1 = RestartDecision.refused ↔
        5 < info.restart_count + 1 := by
  refine ⟨by decide, by decide, ?_⟩
  intro info now
  simp only [restartProcess]
  by_cases h : 5 < info.restart_count + 1
  · rw [if_pos h]
    simp [h, Nat.sub_self]
  · rw [if_neg h]
    simp [h]

namespace CacheM

/-- Outcome of an optional lower cache tier during `CacheManager::set`:
`none` when the tier is not configured, otherwise the result of its write
(`redis set_ex` / `cacache write`). -/
def TierOutcome : Type := Option (Except String Unit)

/-- Does a configured tier report an error? -/
def tierFailed : TierOutcome → Bool
  | some (Except.error _) => true
  | _ => false

/-- `CacheManager::set` (src/src/cache.rs:92-113): insert into the L1
memory cache (infallible), then propagate the L2 (Redis) outcome with `?`,
then the L3 (disk) outcome with `?`.  The memory cache is an association
list from keys to byte vectors; the lower-tier outcomes are passed in as
parameters since they are external I/O. -/
def cacheSet (memory : List (String × List Nat)) (key : String)
    (value : List Nat) (redis : TierOutcome) (disk : TierOutcome) :
    List (String × List Nat) × Except String Unit :=
  let memory2 := assocInsert memory key value
  match redis with
  | some (Except.error e) => (memory2, Except.error e)
  | _ =>
    match disk with
    | some (Except.error e) => (memory2, Except.error e)
    | _ => (memory2, Except.ok ())

end CacheM

open CacheM in
/-- C4 counterexample: with a configured Redis tier whose write fails, a
fresh `set("k", [1,2])` stores the entry in L1 — the L1 write succeeded —
and yet `set` returns that Redis error instead of swallowing it. -/
theorem c4_counterexample_redis_error_fails_set :
    (cacheSet [] "k" [1, 2] (some (Except.error "redis down")) none).2 =
      Except.error "redis down" ∧
    assocFind (cacheSet [] "k" [1, 2]
      (some (Except.error "redis down")) none).1 "k" = some [1, 2] := by
  refine ⟨rfl, by decide⟩

open CacheM in
/-- C4 (amended): `set` always writes L1, but an error from a configured
L2 or L3 tier is propagated by the `?` operator as the result of `set`
(L2 first, then L3), not merely logged: `set` returns `Ok` iff neither
configured lower tier failed. -/
theorem c4_set_propagates_lower_tier_errors :
    ∀ (memory : List (String × List Nat)) (key : String) (value : List Nat)
      (redis disk : TierOutcome),
      (cacheSet memory key value redis disk).1 = assocInsert memory key value ∧
      ((cacheSet memory key value redis disk).2 = Except.ok () ↔
        tierFailed redis = false ∧ tierFailed disk = false) := by
  intro memory key value redis disk
  constructor
  · match redis with
    | none => match disk with
      | none => rfl
      | some (Except.ok _) => rfl
      | some (Except.error _) => rfl
    | some (Except.ok _) => match disk with
      | none => rfl
      | some (Except.ok _) => rfl
      | some (Except.error _) => rfl
    | some (Except.error _) => rfl
  · match redis with
    | none => match disk with
      | none => simp [cacheSet, tierFailed]
      | some (Except.ok _) => simp [cacheSet, tierFailed]
      | some (Except.error e) => simp [cacheSet, tierFailed]
    | some (Except.ok _) => match disk with
      | none => simp [cacheSet, tierFailed]
      | some (Except.ok _) => simp [cacheSet, tierFailed]
      | some (Except.error e) => simp [cacheSet, tierFailed]
    | some (Except.error e) => simp [cacheSet, tierFailed]

namespace FastCGIM

/-- The name/value length encoding of `FastCGIProxy::send_params`
(src/src/proxy/fastcgi.rs:221-257): a length below 128 is written as one
byte; otherwise four bytes are written, the first being
`((len >> 24) | 0x80) as u8` — high bit forced — followed by the next
three big-endian bytes.  Every `as u8` truncation is `% 256`. -/
def lenEncode (n : Nat) : List Nat :=
  if n < 128 then [n % 256]
  else [((n >>> 24) ||| 128) % 256, (n >>> 16) % 256, (n >>> 8) % 256, n % 256]

/-- One `key, value` pair as pushed into `param_bytes` by `send_params`:
both length fields, then the raw key bytes, then the raw value bytes. -/
def encodeParam (key value : List Nat) : List Nat :=
  lenEncode key.length ++ lenEncode value.length ++ key ++ value

/-- The full `param_bytes` buffer of `send_params` for a given iteration
order of the params map. -/
def paramBytes (params : List (List Nat × List Nat)) : List Nat :=
  params.foldl (fun acc kv => acc ++ encodeParam kv.1 kv.2) []

/-- A byte value whose bit 7 is set is at least 128. -/
theorem highBit_of_byte (b : Nat) (hb : b < 256) (h : Nat.testBit b 7 = true) :
    128 ≤ b := by
  rw [Nat.testBit_to_div_mod] at h
  have h128 : (2 : Nat) ^ 7 = 128 := by norm_num
  rw [h128] at h
  simp only [decide_eq_true_eq] at h
  omega

end FastCGIM

open FastCGIM in
/-- C9: in the FastCGI PARAMS encoding, every name or value length of at
most 127 bytes is encoded in a single byte holding the length itself, and
every length of at least 128 bytes is encoded in four bytes whose first
byte is a byte value with the high bit set. -/
theorem c9_params_length_encoding (n : Nat) :
    (n ≤ 127 → lenEncode n = [n]) ∧
    (128 ≤ n → (lenEncode n).length = 4 ∧
      128 ≤ (lenEncode n).headD 0 ∧ (lenEncode n).headD 0 < 256) := by
  constructor
  · intro h
    rw [lenEncode, if_pos (by omega)]
    rw [Nat.mod_eq_of_lt (by omega)]
  · intro h
    rw [lenEncode, if_neg (by omega)]
    refine ⟨rfl, ?_, ?_⟩
    · show 128 ≤ ((n >>> 24) ||| 128) % 256
      apply highBit_of_byte
      · exact Nat.mod_lt _ (by norm_num)
      · have h256 : (256 : Nat) = 2 ^ 8 := by norm_num
        rw [h256, Nat.testBit_mod_two_pow, Nat.testBit_or]
        simp
        exact Or.inr (by decide)
    · show ((n >>> 24) ||| 128) % 256 < 256
      exact Nat.mod_lt _ (by norm_num)

open FastCGIM in
/-- Witness for C9: a 127-byte length is the single byte `[127]`; a
128-byte length occupies four bytes whose first byte has the high bit set
(it is at least 128). -/
theorem c9_params_length_encoding_witness :
    lenEncode 127 = [127] ∧
    (lenEncode 128).length = 4 ∧ 128 ≤ (lenEncode 128).headD 0 := by
  refine ⟨(c9_params_length_encoding 127).1 (by decide), ?_, ?_⟩
  · exact ((c9_params_length_encoding 128).2 (by decide)).1
  · exact ((c9_params_length_encoding 128).2 (by decide)).2.1

namespace SessionM

/-- The CSRF-relevant fields of `session::Session` (src/src/session.rs:21-31);
timestamps are `Nat` seconds and the free-form data map carries opaque
string values. -/
structure Session where
  id : String
  data : List (String × String)
  created_at : Nat
  last_accessed : Nat
  expires_at : Nat
  user_id : Option String
  ip_address : Option String
  user_agent : Option String
  csrf_token : Option String
deriving DecidableEq, Repr

/-- `middleware::session::SessionData`, the extension the session
middleware attaches to a request. -/
structure SessionData where
  session : Option Session
  is_new : Bool
deriving DecidableEq, Repr

/-- Request headers as lowercase-keyed pairs (axum `HeaderMap` lookups are
by lowercase name). -/
def Headers : Type := List (String × String)

/-- `HeaderMap::get` by lowercase name. -/
def headerGet (headers : Headers) (name : String) : Option String :=
  assocFind headers name

/-- `session::validate_csrf_token` (src/src/session.rs:649-651): the
provided token must equal the session's stored token. -/
def validateCsrfToken (session : Session) (provided_token : String) : Bool :=
  session.csrf_token == some provided_token

/-- `session::extract_csrf_token` (src/src/session.rs:654-659): read
`x-csrf-token`, falling back to `x-xsrf-token`. -/
def extractCsrfToken (headers : Headers) : Option String :=
  (headerGet headers "x-csrf-token").orElse
    (fun _ => headerGet headers "x-xsrf-token")

/-- Decision of the CSRF middleware: reject with 403 or forward to the
next handler. -/
inductive CsrfDecision where
  | forbidden
  | forward
deriving DecidableEq, Repr

/-- `middleware::session::csrf_middleware` (src/src/middleware/session.rs:
93-122): only the mutating methods are checked; the check itself runs only
when a `SessionData` extension with a session is present; then a missing
token or a failed validation yields 403. -/
def csrfMiddleware (method : String) (extensions : Option SessionData)
    (headers : Headers) : CsrfDecision :=
  if method == "POST" || method == "PUT" || method == "DELETE"
      || method == "PATCH" then
    match extensions with
    | some session_data =>
      match session_data.session with
      | some session =>
        match extractCsrfToken headers with
        | some token =>
          if validateCsrfToken session token = false then CsrfDecision.forbidden
          else CsrfDecision.forward
        | none => CsrfDecision.forbidden
      | none => CsrfDecision.forward
    | none => CsrfDecision.forward
  else
    CsrfDecision.forward

/-- The session carried by the request extensions, if any. -/
def sessionOf : Option SessionData → Option Session
  | some sd => sd.session
  | none => none

/-- Is the method one of the four mutating methods the middleware checks? -/
def isMutating (method : String) : Bool :=
  method == "POST" || method == "PUT" || method == "DELETE"
    || method == "PATCH"

/-- The token check of the middleware body: true iff a token header is
present and validates against the session. -/
def tokenOk (session : Session) (headers : Headers) : Bool :=
  match extractCsrfToken headers with
  | some token => validateCsrfToken session token
  | none => false

end SessionM

open SessionM in
/-- C10: a mutating request with no session in its extensions (no
`SessionData`, or one whose session is `none`) is always forwarded without
any CSRF check, and the middleware returns 403 exactly when the method is
mutating, a session is present, and the `x-csrf-token`/`x-xsrf-token`
header is missing or does not equal the session's stored token. -/
theorem c10_csrf_only_with_session (method : String)
    (extensions : Option SessionData) (headers : Headers) :
    (sessionOf extensions = none →
      csrfMiddleware method extensions headers = CsrfDecision.forward) ∧
    (csrfMiddleware method extensions headers = CsrfDecision.forbidden ↔
      isMutating method = true ∧
      ∃ session, sessionOf extensions = some session ∧
        tokenOk session headers = false) := by
  constructor
  · intro h
    rw [csrfMiddleware.eq_def]
    by_cases hm : (method == "POST" || method == "PUT" || method == "DELETE"
        || method == "PATCH") = true
    · rw [if_pos hm]
      match extensions, h with
      | none, _ => rfl
      | some sd, h =>
        simp only [sessionOf] at h
        dsimp only
        rw [h]
    · rw [if_neg hm]
  · rw [csrfMiddleware.eq_def, isMutating]
    by_cases hm : (method == "POST" || method == "PUT" || method == "DELETE"
        || method == "PATCH") = true
    · rw [if_pos hm]
      match extensions with
      | none =>
        simp [sessionOf]
      | some sd =>
        match hs : sd.session with
        | none =>
          simp [sessionOf, hs]
        | some session =>
          simp only [sessionOf, hs, Option.some.injEq, tokenOk]
          match ht : extractCsrfToken headers with
          | none =>
            simp [hm]
          | some token =>
            dsimp only
            by_cases hv : validateCsrfToken session token = false
            · rw [if_pos hv]
              simp [hm, hv]
            · rw [if_neg hv]
              simp only [Bool.not_eq_false] at hv
              simp [hm, hv]
    · rw [if_neg hm]
      simp [hm]

open SessionM in
/-- Witness for C10: a POST request carrying a `SessionData` extension with
no session inside is forwarded, and its middleware decision is not 403. -/
theorem c10_csrf_only_with_session_witness :
    csrfMiddleware "POST" (some ⟨none, true⟩) [] = CsrfDecision.forward := by
  exact (c10_csrf_only_with_session "POST" (some ⟨none, true⟩) []).1 rfl

namespace VHostM

/-- The routing identity of `vhost::VirtualHost` (src/src/vhost.rs:11-27):
host patterns and priority.  The remaining configuration payload (TLS,
roots, backends, limits, ...) plays no part in registry construction or
lookup and is omitted from the embedding. -/
structure VirtualHost where
  domains : List String
  priority : Int
deriving DecidableEq, Repr

/-- `vhost::VHostManager` (src/src/vhost.rs:117-122): the exact-domain map
(`HashMap` modelled as an association list with overwriting insert), the
wildcard list in insertion order, and the optional default. -/
structure VHostManager where
  vhosts : List VirtualHost
  domain_map : List (String × VirtualHost)
  wildcard_patterns : List (String × VirtualHost)
  default_vhost : Option VirtualHost
deriving DecidableEq, Repr

/-- The empty manager `VHostManager::new` starts from. -/
def emptyManager : VHostManager :=
  { vhosts := [], domain_map := [], wildcard_patterns := []
    default_vhost := none }

/-- `VHostManager::domain_to_regex` composed with `Regex::is_match`:
`domain_to_regex` escapes the domain literally and turns each `*` into
`[^.]+`, anchored on both sides; so the host matches iff it can be split
along the pattern with every `*` consuming one or more non-dot characters
and every other character matching literally.  Structural recursion is on
the host characters (first argument). -/
def wildMatchAux : List Char → List Char → Bool
  | [], p => p.isEmpty
  | c :: cs, p =>
    match p with
    | [] => false
    | q :: qs =>
      if q = '*' then
        decide (c ≠ '.') && (wildMatchAux cs qs || wildMatchAux cs (q :: qs))
      else
        decide (q = c) && wildMatchAux cs qs

/-- Does the compiled wildcard `pattern` match `hostname`? -/
def wildMatch (pattern hostname : String) : Bool :=
  wildMatchAux hostname.data pattern.data

/-- `VHostManager::add_vhost` (src/src/vhost.rs:144-168): for each domain of
the vhost, `_`/`default` claims the default slot if still free, a domain
containing `*` is appended to the wildcard list, anything else goes into
the exact map; finally the vhost is recorded in `vhosts`. -/
def addVhost (m : VHostManager) (v : VirtualHost) : VHostManager :=
  let m := v.domains.foldl
    (fun m d =>
      if d = "_" || d = "default" then
        if m.default_vhost.isNone then { m with default_vhost := some v }
        else m
      else if strContainsChar d '*' then
        { m with wildcard_patterns := m.wildcard_patterns ++ [(d, v)] }
      else
        { m with domain_map := assocInsert m.domain_map d v })
    m
  { m with vhosts := m.vhosts ++ [v] }

/-- Insertion step of a stable sort by descending priority: keep skipping
elements of strictly higher priority, so equal priorities stay in their
original order, as Rust's stable `sort_by(|a, b| b.priority.cmp(&a.priority))`
guarantees. -/
def insertDesc (v : VirtualHost) : List VirtualHost → List VirtualHost
  | [] => [v]
  | w :: ws =>
    if v.priority < w.priority then w :: insertDesc v ws else v :: w :: ws

/-- Stable sort by descending priority (the sort performed by
`VHostManager::new` before adding vhosts). -/
def sortByPriorityDesc : List VirtualHost → List VirtualHost
  | [] => []
  | v :: vs => insertDesc v (sortByPriorityDesc vs)

/-- `VHostManager::new` (src/src/vhost.rs:125-142): sort by descending
priority, then add every vhost in that order. -/
def newManager (vhosts : List VirtualHost) : VHostManager :=
  (sortByPriorityDesc vhosts).foldl addVhost emptyManager

/-- `VHostManager::get_vhost` (src/src/vhost.rs:182-205): exact match
first, then the wildcard patterns in list order, then the default. -/
def getVhost (m : VHostManager) (hostname : String) : Option VirtualHost :=
  match assocFind m.domain_map hostname with
  | some v => some v
  | none =>
    match m.wildcard_patterns.find? (fun pv => wildMatch pv.1 hostname) with
    | some pv => some pv.2
    | none => m.default_vhost

/-- The wildcard domains a vhost contributes to the registry. -/
def wildDomains (v : VirtualHost) : List String :=
  v.domains.filter (fun d => !(d = "_" || d = "default") && strContainsChar d '*')

/-- Membership in `insertDesc` is membership in the inputs. -/
theorem mem_insertDesc (x v : VirtualHost) :
    ∀ l, x ∈ insertDesc v l → x = v ∨ x ∈ l := by
  intro l
  induction l with
  | nil =>
    intro h
    simp [insertDesc] at h
    exact Or.inl h
  | cons w ws ih =>
    intro h
    rw [insertDesc] at h
    by_cases hc : v.priority < w.priority
    · rw [if_pos hc] at h
      rcases List.mem_cons.mp h with h1 | h2
      · exact Or.inr (List.mem_cons.mpr (Or.inl h1))
      · rcases ih h2 with h3 | h4
        · exact Or.inl h3
        · exact Or.inr (List.mem_cons.mpr (Or.inr h4))
    · rw [if_neg hc] at h
      rcases List.mem_cons.mp h with h1 | h2
      · exact Or.inl h1
      · exact Or.inr h2

/-- `insertDesc` preserves descending-priority pairwise order. -/
theorem pairwise_insertDesc (v : VirtualHost) :
    ∀ l, l.Pairwise (fun a b => b.priority ≤ a.priority) →
      (insertDesc v l).Pairwise (fun a b => b.priority ≤ a.priority) := by
  intro l
  induction l with
  | nil =>
    intro _
    simp [insertDesc]
  | cons w ws ih =>
    intro hp
    rw [List.pairwise_cons] at hp
    rw [insertDesc]
    by_cases hc : v.priority < w.priority
    · rw [if_pos hc]
      rw [List.pairwise_cons]
      constructor
      · intro x hx
        rcases mem_insertDesc x v ws hx with h1 | h2
        · rw [h1]; omega
        · exact hp.1 x h2
      · exact ih hp.2
    · rw [if_neg hc]
      rw [List.pairwise_cons]
      constructor
      · intro x hx
        rcases List.mem_cons.mp hx with h1 | h2
        · rw [h1]; omega
        · have := hp.1 x h2
          omega
      · exact List.pairwise_cons.mpr hp

/-- The stable sort produces a descending-priority list. -/
theorem pairwise_sortByPriorityDesc (l : List VirtualHost) :
    (sortByPriorityDesc l).Pairwise (fun a b => b.priority ≤ a.priority) := by
  induction l with
  | nil => simp [sortByPriorityDesc]
  | cons v vs ih => exact pairwise_insertDesc v (sortByPriorityDesc vs) ih

/-- The inner domain fold of `add_vhost` only ever appends this vhost's own
wildcard domains to the wildcard list. -/
theorem foldDomains_wildcards (v : VirtualHost) :
    ∀ (ds : List String) (m : VHostManager),
      (ds.foldl
        (fun m d =>
          if d = "_" || d = "default" then
            if m.default_vhost.isNone then { m with default_vhost := some v }
            else m
          else if strContainsChar d '*' then
            { m with wildcard_patterns := m.wildcard_patterns ++ [(d, v)] }
          else
            { m with domain_map := assocInsert m.domain_map d v })
        m).wildcard_patterns =
      m.wildcard_patterns ++
        (ds.filter (fun d => !(d = "_" || d = "default") && strContainsChar d '*')).map
          (fun d => (d, v)) := by
  intro ds
  induction ds with
  | nil =>
    intro m
    simp
  | cons d rest ih =>
    intro m
    rw [List.foldl_cons]
    by_cases h1 : (d = "_" || d = "default") = true
    · have hd : d = "_" ∨ d = "default" := by simpa using h1
      by_cases h3 : m.default_vhost.isNone = true
      · rw [if_pos h1, if_pos h3, ih]
        rcases hd with h | h <;> subst h <;> simp [List.filter_cons]
      · rw [if_pos h1, if_neg h3, ih]
        rcases hd with h | h <;> subst h <;> simp [List.filter_cons]
    · have hd : ¬d = "_" ∧ ¬d = "default" := by simpa using h1
      by_cases h4 : strContainsChar d '*' = true
      · rw [if_neg h1, if_pos h4, ih]
        simp [List.filter_cons, hd.1, hd.2, h4]
      · have h4f : strContainsChar d '*' = false := by simpa using h4
        rw [if_neg h1, if_neg h4, ih]
        simp [List.filter_cons, hd.1, hd.2, h4f]

/-- `add_vhost` appends exactly the vhost's wildcard domains. -/
theorem addVhost_wildcards (m : VHostManager) (v : VirtualHost) :
    (addVhost m v).wildcard_patterns =
      m.wildcard_patterns ++ (wildDomains v).map (fun d => (d, v)) := by
  rw [addVhost, wildDomains]
  exact foldDomains_wildcards v v.domains m

/-- Folding `add_vhost` over a vhost list concatenates the per-vhost
wildcard contributions in order. -/
theorem foldl_addVhost_wildcards :
    ∀ (vs : List VirtualHost) (m : VHostManager),
      (vs.foldl addVhost m).wildcard_patterns =
        m.wildcard_patterns ++
          vs.flatMap (fun v => (wildDomains v).map (fun d => (d, v))) := by
  intro vs
  induction vs with
  | nil =>
    intro m
    simp
  | cons v rest ih =>
    intro m
    rw [List.foldl_cons, ih, addVhost_wildcards, List.flatMap_cons,
      List.append_assoc]

/-- All wildcard contributions of a descending-priority vhost list are
themselves in descending priority order (on the vhost component). -/
theorem pairwise_bind_wildcards :
    ∀ vs : List VirtualHost,
      vs.Pairwise (fun a b => b.priority ≤ a.priority) →
      (vs.flatMap (fun v => (wildDomains v).map (fun d => (d, v)))).Pairwise
        (fun a b => b.2.priority ≤ a.2.priority) := by
  intro vs
  induction vs with
  | nil =>
    intro _
    simp
  | cons v rest ih =>
    intro hp
    rw [List.pairwise_cons] at hp
    rw [List.flatMap_cons, List.pairwise_append]
    refine ⟨?_, ih hp.2, ?_⟩
    · rw [List.pairwise_map]
      exact List.pairwise_of_forall (fun x y => le_refl v.priority)
    · intro a ha b hb
      rcases List.mem_map.mp ha with ⟨d, _, hd2⟩
      rcases List.mem_flatMap.mp hb with ⟨w, hw1, hw2⟩
      rcases List.mem_map.mp hw2 with ⟨d2, _, hd4⟩
      rw [← hd2, ← hd4]
      exact hp.1 w hw1

/-- In a list sorted by descending measure, the first element satisfying a
predicate has the greatest measure among all elements satisfying it. -/
theorem find_first_is_max {α : Type} (f : α → Int) (p : α → Bool) :
    ∀ (l : List α) (x : α),
      l.Pairwise (fun a b => f b ≤ f a) →
      l.find? p = some x →
      ∀ y ∈ l, p y = true → f y ≤ f x := by
  intro l
  induction l with
  | nil =>
    intro x _ hf
    simp at hf
  | cons a rest ih =>
    intro x hp hf y hy hpy
    rw [List.pairwise_cons] at hp
    by_cases hpa : p a = true
    · rw [List.find?_cons_of_pos _ hpa] at hf
      injection hf with hf
      rcases List.mem_cons.mp hy with h1 | h2
      · rw [h1, hf]
      · rw [← hf]
        exact hp.1 y h2
    · rw [List.find?_cons_of_neg _ (by simpa using hpa)] at hf
      rcases List.mem_cons.mp hy with h1 | h2
      · rw [h1] at hpy
        exact absurd hpy hpa
      · exact ih x hp.2 hf y h2 hpy

/-- The compiled registry's wildcard list is sorted by descending vhost
priority. -/
theorem newManager_wildcards_sorted (vhosts : List VirtualHost) :
    (newManager vhosts).wildcard_patterns.Pairwise
      (fun a b => b.2.priority ≤ a.2.priority) := by
  rw [newManager, foldl_addVhost_wildcards]
  simp only [emptyManager, List.nil_append]
  exact pairwise_bind_wildcards (sortByPriorityDesc vhosts)
    (pairwise_sortByPriorityDesc vhosts)

end VHostM

open VHostM in
/-- C8: for every registry built from a configuration and every host name,
lookup is the deterministic function `get_vhost` and observes the
precedence the claim states: an exact-map hit is returned regardless of
any wildcard; otherwise the first matching wildcard is returned and —
because `new` adds vhosts in descending priority order — it belongs to a
vhost of maximal priority among all matching wildcards; otherwise the
default sentinel (possibly absent, in which case no vhost results) is
returned. -/
theorem c8_vhost_lookup_precedence (vhosts : List VirtualHost)
    (hostname : String) :
    (∀ v, assocFind (newManager vhosts).domain_map hostname = some v →
      getVhost (newManager vhosts) hostname = some v) ∧
    (assocFind (newManager vhosts).domain_map hostname = none →
      (∀ pv, (newManager vhosts).wildcard_patterns.find?
          (fun q => wildMatch q.1 hostname) = some pv →
        getVhost (newManager vhosts) hostname = some pv.2 ∧
        ∀ q ∈ (newManager vhosts).wildcard_patterns,
          wildMatch q.1 hostname = true → q.2.priority ≤ pv.2.priority) ∧
      ((newManager vhosts).wildcard_patterns.find?
          (fun q => wildMatch q.1 hostname) = none →
        getVhost (newManager vhosts) hostname =
          (newManager vhosts).default_vhost)) := by
  constructor
  · intro v h
    rw [getVhost, h]
  · intro h
    constructor
    · intro pv hf
      constructor
      · rw [getVhost, h, hf]
      · intro q hq hm
        exact find_first_is_max (fun q => q.2.priority)
          (fun q => wildMatch q.1 hostname)
          (newManager vhosts).wildcard_patterns pv
          (newManager_wildcards_sorted vhosts) hf q hq hm
    · intro hn
      rw [getVhost, h, hn]

open VHostM in
/-- Witness for C8: in the registry built from a wildcard vhost
`*.example.com` (priority 50) and an exact vhost `specific.example.com`
(priority 100), the host `sub.example.com` has no exact entry and resolves
through the wildcard branch to the wildcard vhost. -/
theorem c8_vhost_lookup_precedence_witness :
    getVhost (newManager [⟨["*.example.com"], (50 : Int)⟩,
        ⟨["specific.example.com"], 100⟩]) "sub.example.com" =
      some ⟨["*.example.com"], 50⟩ := by
  exact (((c8_vhost_lookup_precedence
      [⟨["*.example.com"], (50 : Int)⟩, ⟨["specific.example.com"], 100⟩]
      "sub.example.com").2 (by decide)).1
    ("*.example.com", ⟨["*.example.com"], 50⟩) (by decide)).1
